import Mathlib

/-!
Verification of the elysium-lsp macro-convention indexer.

Shallow embedding of the Rust sources:
  * `src/plugins/mod.rs`         — `range_contains`, the plugin interface;
  * `src/plugins/clang_utils.rs` — token model, `cxlocation_to_position`,
    `token_range`, `tokens_range`, `tokens_to_string`, `split_macro_args`;
  * `src/plugins/hooks.rs`       — `HookPlugin` state and operations;
  * `src/plugins/init.rs`        — `InitDependencyPlugin` state and operations,
    `build_target`;
  * `src/lsp.rs`                 — diagnostic publish/retract round.

Modelling conventions:
  * machine integers that libclang reports (`line`, `column`) are `Nat`;
    Rust's `saturating_sub(1)` is `Nat` subtraction, which saturates at 0;
  * file paths are abstract string keys; `Path::canonicalize` (an OS call)
    is modelled as the identity on those keys, so a plugin's `HashMap`
    keyed by canonical path becomes an association list keyed by `Path`,
    with insert-replace and erase; `HashMap` keys are distinct, which the
    association-list theorems carry as a `Nodup` hypothesis where needed;
  * the libclang parse itself (`clang_parseTranslationUnit` + visitor) is
    an external capability; its outcome enters `on_file_updated` as an
    explicit `Except` argument, exactly where `parse_hooks`/`parse_targets`
    return in the source;
  * Rust's `String::to_lowercase` / `str::trim` are `String.toLower` /
    `String.trim`; byte-lexicographic `Ord` on UTF-8 `String` agrees with
    the code-point lexicographic order of Lean's `String` order.
-/

namespace Elysium

/-- Editor position (tower_lsp `Position`): zero-based line / character. -/
structure Position where
  line : Nat
  character : Nat
deriving DecidableEq

/-- Editor range (tower_lsp `Range`); `end` is a Lean keyword so the field
is called `stop`. -/
structure Range where
  start : Position
  stop : Position
deriving DecidableEq

/-- Lexicographic order on positions, used to state "ends at least at". -/
def posLe (a b : Position) : Prop :=
  a.line < b.line ∨ (a.line = b.line ∧ a.character ≤ b.character)

instance (a b : Position) : Decidable (posLe a b) := by
  unfold posLe; infer_instance

/-- Embedding of `range_contains` from `src/plugins/mod.rs` (lines 16–27). -/
def range_contains (range : Range) (pos : Position) : Bool :=
  if pos.line < range.start.line || pos.line > range.stop.line then false
  else if pos.line == range.start.line && pos.character < range.start.character then false
  else if pos.line == range.stop.line && pos.character > range.stop.character then false
  else true

/-- A libclang file location as reported by `clang_getFileLocation`:
one-based line/column. When the location cannot be resolved to a file,
libclang reports line 0 and column 0 (there is no separate failure
channel in the reported numbers). -/
structure Location where
  line : Nat
  column : Nat
deriving DecidableEq

/-- A libclang source extent: start and end location. -/
structure LocRange where
  start : Location
  stop : Location
deriving DecidableEq

/-- Embedding of `cxlocation_to_position` from `src/plugins/clang_utils.rs` (103–118):
always returns `Some(Position::new(line.saturating_sub(1), column.saturating_sub(1)))`;
`Nat` subtraction is saturating. -/
def cxlocation_to_position (loc : Location) : Option Position :=
  some ⟨loc.line - 1, loc.column - 1⟩

/-- A preprocessor token: spelling, whether its kind is `CXToken_Literal`,
and its source extent. -/
structure Token where
  spelling : String
  isLiteral : Bool
  extent : LocRange
deriving DecidableEq

/-- Embedding of `token_range` from `clang_utils.rs` (87–93). -/
def token_range (tok : Token) : Option Range := do
  let s ← cxlocation_to_position tok.extent.start
  let e ← cxlocation_to_position tok.extent.stop
  pure ⟨s, e⟩

/-- A macro-expansion cursor: spelling, extent, and the token list its
extent tokenizes to (`clang_tokenize` output). -/
structure Cursor where
  spelling : String
  extent : LocRange
  tokens : List Token
deriving DecidableEq

/-- Embedding of `cursor_range` from `clang_utils.rs` (95–101). -/
def cursor_range (c : Cursor) : Option Range := do
  let s ← cxlocation_to_position c.extent.start
  let e ← cxlocation_to_position c.extent.stop
  pure ⟨s, e⟩

/-- Embedding of `tokenize_cursor` from `clang_utils.rs` (12–26): `none` when the
extent yields zero tokens. -/
def tokenize_cursor (c : Cursor) : Option (List Token) :=
  if c.tokens.isEmpty then none else some c.tokens

/-- Embedding of `tokens_to_string` from `clang_utils.rs` (63–74): concatenation of
the token spellings, always `some`. -/
def tokens_to_string (ts : List Token) : Option String :=
  some (ts.foldl (fun buf t => buf ++ t.spelling) "")

/-- Embedding of `tokens_range` from `clang_utils.rs` (76–85). -/
def tokens_range (ts : List Token) : Option Range := do
  let first ← ts.head?
  let last ← ts.getLast?
  let r1 ← token_range first
  let r2 ← token_range last
  pure ⟨r1.start, r2.stop⟩

/-- The loop body of `split_macro_args` (`clang_utils.rs` 28–61), with the
match arms in source order: `"(" if !collecting`, `"("`, `")" if depth == 0`
(push current and break), `")"`, `"," if depth == 0`, `_ if collecting`,
`_` (ignore). -/
def splitLoop : List Token → List (List Token) → List Token → Nat → Bool → List (List Token)
  | [], args, _, _, _ => args
  | t :: rest, args, current, depth, collecting =>
    if t.spelling = "(" then
      if collecting then splitLoop rest args (current ++ [t]) (depth + 1) collecting
      else splitLoop rest args current depth true
    else if t.spelling = ")" then
      if depth = 0 then args ++ [current]
      else splitLoop rest args (current ++ [t]) (depth - 1) collecting
    else if t.spelling = "," ∧ depth = 0 then
      splitLoop rest (args ++ [current]) [] depth collecting
    else if collecting then splitLoop rest args (current ++ [t]) depth collecting
    else splitLoop rest args current depth collecting

/-- Embedding of `split_macro_args` from `clang_utils.rs` (28–61): always `Some`. -/
def split_macro_args (ts : List Token) : Option (List (List Token)) :=
  some (splitLoop ts [] [] 0 false)

/-- Diagnostic severity (only the two values the plugins emit). -/
inductive Severity
  | error
  | warning
deriving DecidableEq

/-- An LSP diagnostic as the plugins build it: range, severity, message,
source tag. -/
structure Diagnostic where
  range : Range
  severity : Severity
  message : String
  source : String
deriving DecidableEq

/-- Completion item kinds used by the two plugins. -/
inductive CompletionKind
  | function
  | constant
deriving DecidableEq

/-- An LSP completion item as the plugins build it: label, kind, detail. -/
structure CompletionItem where
  label : String
  kind : CompletionKind
  detail : String
deriving DecidableEq

/-- Abstract (canonical) file path. -/
abbrev Path := String

/-- Lookup in an association-list model of a `HashMap`: first entry whose
key matches. -/
def lookupFile {α : Type} (st : List (Path × α)) (p : Path) : Option α :=
  (st.find? (fun e => e.1 == p)).map Prod.snd

/-- Embedding of `HashMap::insert` (replace semantics) on the association-list model. -/
def mapInsert {α : Type} (st : List (Path × α)) (p : Path) (v : α) : List (Path × α) :=
  st.filter (fun e => e.1 != p) ++ [(p, v)]

/-- Embedding of `HashMap::remove` on the association-list model. -/
def mapErase {α : Type} (st : List (Path × α)) (p : Path) : List (Path × α) :=
  st.filter (fun e => e.1 != p)

/-- Embedding of `path.extension() == Some("c")` (`hooks.rs` 95, `init.rs` 80), modelled
on abstract string paths: the path ends in `.c` with a non-empty stem in
front of the dot (Rust's `extension()` is `None` for a bare `.c` name). -/
def hasCExtension (p : Path) : Bool :=
  match p.toList.reverse with
  | 'c' :: '.' :: _ :: _ => true
  | _ => false

/-! ## Hook Indexer (`src/plugins/hooks.rs`) -/

/-- Embedding of `HookInvocationKind` from `hooks.rs` (41–45). -/
inductive HookInvocationKind
  | definition
  | run
deriving DecidableEq

/-- Embedding of `HookDefinition` from `hooks.rs` (36–39). -/
structure HookDefinition where
  name : String
deriving DecidableEq

/-- Embedding of `HookInvocation` from `hooks.rs` (47–53). -/
structure HookInvocation where
  name : String
  name_range : Range
  argument_region : Range
  kind : HookInvocationKind
deriving DecidableEq

/-- Embedding of `HookFileData` from `hooks.rs` (30–34). -/
structure HookFileData where
  definitions : List HookDefinition
  invocations : List HookInvocation
deriving DecidableEq

/-- The `files: HashMap<PathBuf, HookFileData>` field of `HookPlugin`. -/
abbrev HookState := List (Path × HookFileData)

/-- Embedding of `HookPlugin::iter_definitions` (`hooks.rs` 71–73). -/
def iter_definitions (st : HookState) : List HookDefinition :=
  st.flatMap (fun e => e.2.definitions)

/-- Ascending sorted-unique insertion, modelling accumulation into the
`BTreeSet<String>` of `HookPlugin::completion_items` (`hooks.rs` 75–90)
with its ascending iteration order. -/
def insertAscending (s : String) : List String → List String
  | [] => [s]
  | x :: xs =>
    if s = x then x :: xs
    else if s < x then s :: x :: xs
    else x :: insertAscending s xs

/-- The ascending duplicate-free name list the `BTreeSet` of
`HookPlugin::completion_items` iterates. -/
def hook_completion_names (st : HookState) : List String :=
  (iter_definitions st).foldl (fun acc d => insertAscending d.name acc) []

/-- Embedding of `HookPlugin::completion_items` (`hooks.rs` 75–90). -/
def hook_completion_items (st : HookState) : List CompletionItem :=
  (hook_completion_names st).map (fun n => ⟨n, .function, "hook"⟩)

/-- Embedding of `HookPlugin::on_file_updated` (`hooks.rs` 94–109). The libclang parse
(`parse_hooks`) is an external capability, so its outcome is passed in;
the mutated state is returned alongside the `Result`. -/
def hook_on_file_updated (st : HookState) (p : Path)
    (parseResult : Except String HookFileData) : HookState × Except String Unit :=
  if ¬ hasCExtension p then (st, .ok ())
  else
    match parseResult with
    | .error e => (st, .error e)
    | .ok data => (mapInsert st p data, .ok ())

/-- Embedding of `HookPlugin::on_file_removed` (`hooks.rs` 111–115). -/
def hook_on_file_removed (st : HookState) (p : Path) : HookState :=
  mapErase st p

/-- Embedding of `HookPlugin::completions` (`hooks.rs` 117–130). -/
def hook_completions (st : HookState) (p : Path) (pos : Position) :
    Option (List CompletionItem) := do
  let data ← lookupFile st p
  if data.invocations.any (fun inv => range_contains inv.argument_region pos) then
    pure (hook_completion_items st)
  else none

/-- The known-name union of `HookPlugin::diagnostics` (`hooks.rs` 133):
the `BTreeSet` is used only through `contains`, so a name list with the
same membership models it. -/
def hookKnownNames (st : HookState) : List String :=
  (iter_definitions st).map HookDefinition.name

/-- The diagnostic pushed at `hooks.rs` 147–153. -/
def mkUnknownHookDiag (inv : HookInvocation) : Diagnostic :=
  ⟨inv.name_range, .error, "Unknown hook '" ++ inv.name ++ "'", "cronus-hooks"⟩

/-- The diagnostics one file's invocations contribute in
`HookPlugin::diagnostics` (`hooks.rs` 136–156): kind `Run`, non-empty
name, name not in the known union. -/
def unknownHookDiags (known : List String) (invs : List HookInvocation) :
    List Diagnostic :=
  ((invs.filter (fun i => i.kind == .run)).filter
      (fun i => i.name != "" && ¬ known.contains i.name)).map mkUnknownHookDiag

/-- Embedding of `HookPlugin::diagnostics` (`hooks.rs` 132–159): the per-file map;
an entry exists only when at least one diagnostic was pushed for it. -/
def hook_diagnostics (st : HookState) : List (Path × List Diagnostic) :=
  st.filterMap (fun e =>
    let ds := unknownHookDiags (hookKnownNames st) e.2.invocations
    if ds.isEmpty then none else some (e.1, ds))

/-- Reading a file's list out of a diagnostics map; absent entry = `[]`. -/
def diagLookup (m : List (Path × List Diagnostic)) (p : Path) : List Diagnostic :=
  (lookupFile m p).getD []

/-! ## Init-Target Indexer (`src/plugins/init.rs`) -/

/-- Embedding of `DependencySlot` from `init.rs` (30–34). -/
structure DependencySlot where
  name : String
  range : Range
deriving DecidableEq

/-- Embedding of `InitTarget` from `init.rs` (36–44); `dependency_region` spans the
dependency-list argument. -/
structure InitTarget where
  name : String
  stage_expr : String
  scope_expr : String
  file : Path
  dependency_region : Range
  dependency_slots : List DependencySlot
deriving DecidableEq

/-- The `targets_by_file: HashMap<PathBuf, Vec<InitTarget>>` field of
`InitDependencyPlugin`. -/
abbrev InitState := List (Path × List InitTarget)

/-- Embedding of `InitDependencyPlugin::iter_targets` (`init.rs` 59–61). -/
def iter_targets (st : InitState) : List InitTarget :=
  st.flatMap (fun e => e.2)

/-- The completion item built per target at `init.rs` 66–71. -/
def mkInitItem (t : InitTarget) : CompletionItem :=
  ⟨t.name, .constant, t.stage_expr ++ "/" ++ t.scope_expr⟩

/-- The `sort_by` comparator of `init.rs` 73, as a boolean `le`:
case-insensitive (lowercased-label) comparison. -/
def initItemLe (a b : CompletionItem) : Bool :=
  a.label.toLower ≤ b.label.toLower

/-- Embedding of `InitDependencyPlugin::completion_items` (`init.rs` 63–75): one item
per target (no deduplication), stably sorted by lowercased label. -/
def init_completion_items (st : InitState) : List CompletionItem :=
  ((iter_targets st).map mkInitItem).mergeSort initItemLe

/-- Embedding of `InitDependencyPlugin::on_file_updated` (`init.rs` 79–95); the
libclang parse (`parse_targets`) outcome is passed in. -/
def init_on_file_updated (st : InitState) (p : Path)
    (parseResult : Except String (List InitTarget)) : InitState × Except String Unit :=
  if ¬ hasCExtension p then (st, .ok ())
  else
    match parseResult with
    | .error e => (st, .error e)
    | .ok targets => (mapInsert st p targets, .ok ())

/-- Embedding of `InitDependencyPlugin::on_file_removed` (`init.rs` 97–101). -/
def init_on_file_removed (st : InitState) (p : Path) : InitState :=
  mapErase st p

/-- Embedding of `InitDependencyPlugin::completions` (`init.rs` 103–115). -/
def init_completions (st : InitState) (p : Path) (pos : Position) :
    Option (List CompletionItem) := do
  let targets ← lookupFile st p
  if targets.any (fun t => range_contains t.dependency_region pos) then
    pure (init_completion_items st)
  else none

/-- The known-name union of `InitDependencyPlugin::diagnostics`
(`init.rs` 118), used only through `contains`. -/
def initKnownNames (st : InitState) : List String :=
  (iter_targets st).map InitTarget.name

/-- The per-name occurrence count of `init.rs` 122–125. -/
def countSlotName (t : InitTarget) (n : String) : Nat :=
  (t.dependency_slots.filter (fun s => s.name == n)).length

/-- The error diagnostic pushed at `init.rs` 129–138. -/
def mkUnknownDepDiag (s : DependencySlot) : Diagnostic :=
  ⟨s.range, .error, "Unknown init dependency '" ++ s.name ++ "'", "cronus-init"⟩

/-- The warning diagnostic pushed at `init.rs` 140–152. -/
def mkDupDepDiag (t : InitTarget) (s : DependencySlot) : Diagnostic :=
  ⟨s.range, .warning,
    "Duplicate dependency '" ++ s.name ++ "' in " ++ t.name, "cronus-init"⟩

/-- One target's slot loop in `InitDependencyPlugin::diagnostics`
(`init.rs` 127–154): per slot, `if !known.contains` then the error,
`else if count > 1` then the warning, else nothing. -/
def initTargetDiags (known : List String) (t : InitTarget) : List Diagnostic :=
  t.dependency_slots.filterMap (fun s =>
    if ¬ known.contains s.name then some (mkUnknownDepDiag s)
    else if countSlotName t s.name > 1 then some (mkDupDepDiag t s)
    else none)

/-- The entry of the `diag_map` built by `InitDependencyPlugin::diagnostics`
(`init.rs` 117–158) for one file: every target (in iteration order) pushes
its slot diagnostics into the entry keyed by `target.file`. -/
def init_diagnostics_at (st : InitState) (f : Path) : List Diagnostic :=
  ((iter_targets st).filter (fun t => t.file == f)).flatMap
    (initTargetDiags (initKnownNames st))

/-- Rust `str::trim_matches('"')` (`init.rs` 270): strip the quote
character from both ends. -/
def stripQuotes (s : String) : String :=
  String.mk (((s.toList.dropWhile (fun c => c == '"')).reverse.dropWhile
    (fun c => c == '"')).reverse)

/-- The dependency-token loop of `build_target` (`init.rs` 265–276): for
every `CXToken_Literal` token, move `dependency_region.end` to that
literal's range end and record a quote-stripped `DependencySlot`; the `?`
operators on `token_range`/`tokens_to_string` abort the whole build. -/
def depsLoop : List Token → Range → List DependencySlot →
    Option (Range × List DependencySlot)
  | [], reg, slots => some (reg, slots)
  | tok :: rest, reg, slots =>
    if tok.isLiteral then
      match token_range tok with
      | none => none
      | some lr =>
        match tokens_to_string [tok] with
        | none => none
        | some lit =>
          depsLoop rest ⟨reg.start, lr.stop⟩
            (slots ++ [⟨stripQuotes lit, lr⟩])
    else depsLoop rest reg slots

/-- Embedding of `build_target` from `init.rs` (252–285): tokenize the cursor, split
macro arguments, require exactly 4, extract the three expression strings,
compute the dependency region (bounding range of the dependency tokens,
falling back to the cursor extent), then run the literal loop. -/
def build_target (file : Path) (c : Cursor) : Option InitTarget := do
  let tokens ← tokenize_cursor c
  let args ← split_macro_args tokens
  if h4 : args.length = 4 then
    let name ← tokens_to_string (args.get ⟨0, by omega⟩)
    let stage_expr ← tokens_to_string (args.get ⟨1, by omega⟩)
    let scope_expr ← tokens_to_string (args.get ⟨2, by omega⟩)
    let depsTokens := args.get ⟨3, by omega⟩
    let region0 ← (tokens_range depsTokens).or (cursor_range c)
    let (region, slots) ← depsLoop depsTokens region0 []
    pure ⟨name, stage_expr, scope_expr, file, region, slots⟩
  else none

/-- The dependency-argument extraction inside `build_target`: the fourth
argument group, when the tokenize/split/arity pipeline succeeds. -/
def depsArg (c : Cursor) : Option (List Token) := do
  let tokens ← tokenize_cursor c
  let args ← split_macro_args tokens
  if h4 : args.length = 4 then pure (args.get ⟨3, by omega⟩) else none

/-! ## Coordinator publish round (`src/lsp.rs`) -/

/-- Embedding of `ElysiumLsp::publish_all_diagnostics` (`lsp.rs` 182–208): publish every
current per-file list, then an explicit empty list for every previously
published file absent from the current round, and record the current
round's file set as the new `published_paths`. Returns (publishes sent,
new published set). -/
def publish_round (published : List Path) (current : List (Path × List Diagnostic)) :
    List (Path × List Diagnostic) × List Path :=
  let currentPaths := current.map Prod.fst
  let stale := published.filter (fun p => ¬ currentPaths.contains p)
  (current ++ stale.map (fun p => (p, ([] : List Diagnostic))), currentPaths)

/-! ## Concrete fixtures used by counterexamples and witnesses -/

/-- A non-literal token on (one-based) line 1 between columns `a` and `b`. -/
def mkTok (s : String) (a b : Nat) : Token :=
  ⟨s, false, ⟨⟨1, a⟩, ⟨1, b⟩⟩⟩

/-- A string-literal token on line 1 between columns `a` and `b`. -/
def mkLit (s : String) (a b : Nat) : Token :=
  ⟨s, true, ⟨⟨1, a⟩, ⟨1, b⟩⟩⟩

/-- The token stream of `FOO(a, (b,c), d)`. -/
def fooCallTokens : List Token :=
  [mkTok "FOO" 1 4, mkTok "(" 4 5, mkTok "a" 5 6, mkTok "," 6 7, mkTok "(" 8 9,
   mkTok "b" 9 10, mkTok "," 10 11, mkTok "c" 11 12, mkTok ")" 12 13,
   mkTok "," 13 14, mkTok "d" 15 16, mkTok ")" 16 17]

/-- A token stream starting with a top-level comma before any `(`. -/
def commaFirstTokens : List Token :=
  [mkTok "," 1 2, mkTok "(" 3 4, mkTok "a" 4 5, mkTok ")" 5 6]

/-- The stream `commaFirstTokens` without the leading comma. -/
def afterCommaTokens : List Token :=
  [mkTok "(" 3 4, mkTok "a" 4 5, mkTok ")" 5 6]

/-- First `"a"` dependency slot of the C1 scenario. -/
def c1SlotA1 : DependencySlot := ⟨"a", ⟨⟨0, 0⟩, ⟨0, 3⟩⟩⟩

/-- Second `"a"` dependency slot of the C1 scenario. -/
def c1SlotA2 : DependencySlot := ⟨"a", ⟨⟨0, 5⟩, ⟨0, 8⟩⟩⟩

/-- An init target with dependency list `"a", "a"` where no target named
`a` exists. -/
def c1Target : InitTarget :=
  ⟨"t", "STAGE", "SCOPE", "f.c", ⟨⟨0, 0⟩, ⟨0, 9⟩⟩, [c1SlotA1, c1SlotA2]⟩

/-- Index state holding only `c1Target`. -/
def c1State : InitState := [("f.c", [c1Target])]

/-- Argument region used by the C2 fixtures. -/
def c2Region : Range := ⟨⟨0, 0⟩, ⟨0, 9⟩⟩

/-- Hook state with one `Run` invocation and no hook definitions anywhere. -/
def c2State : HookState :=
  [("f.c", ⟨[], [⟨"x", c2Region, c2Region, .run⟩]⟩)]

/-- Hook state with one definition `build` and its definition-site
invocation record. -/
def c2DefState : HookState :=
  [("f.c", ⟨[⟨"build"⟩], [⟨"build", c2Region, c2Region, .definition⟩]⟩)]

/-- Hook state owning file `g.c`, for the removal witness. -/
def c3HookState : HookState := [("g.c", ⟨[⟨"h"⟩], []⟩)]

/-- Init state owning file `g.c`, for the removal witness. -/
def c3InitState : InitState :=
  [("g.c", [⟨"t", "S", "Sc", "g.c", ⟨⟨0, 0⟩, ⟨0, 1⟩⟩, []⟩])]

/-- Range used by the C6 fixture. -/
def c6Range : Range := ⟨⟨2, 4⟩, ⟨2, 11⟩⟩

/-- File data with a known run, an unknown run, an empty-name run and a
definition-site invocation. -/
def c6FileData : HookFileData :=
  ⟨[⟨"build"⟩],
   [⟨"missing", c6Range, c6Range, .run⟩, ⟨"build", c6Range, c6Range, .run⟩,
    ⟨"", c6Range, c6Range, .run⟩, ⟨"build", c6Range, c6Range, .definition⟩]⟩

/-- Hook state holding only `c6FileData`. -/
def c6State : HookState := [("f.c", c6FileData)]

/-- An `INIT_TARGET(n, s, c, "a" x)` occurrence whose dependency argument
has a trailing non-literal token after the last string literal. -/
def c8Cursor : Cursor :=
  ⟨"INIT_TARGET", ⟨⟨1, 1⟩, ⟨1, 40⟩⟩,
   [mkTok "INIT_TARGET" 1 12, mkTok "(" 12 13, mkTok "n" 13 14, mkTok "," 14 15,
    mkTok "s" 15 16, mkTok "," 16 17, mkTok "c" 17 18, mkTok "," 18 19,
    mkLit "\"a\"" 20 23, mkTok "x" 24 30, mkTok ")" 30 31]⟩

/-- The dependency argument group of `c8Cursor`. -/
def c8Deps : List Token := [mkLit "\"a\"" 20 23, mkTok "x" 24 30]

/-- The last (only) string literal of `c8Deps`. -/
def c8Lit : Token := mkLit "\"a\"" 20 23

/-- The target `build_target` extracts from `c8Cursor`. -/
def c8Target : InitTarget :=
  ⟨"n", "s", "c", "f.c", ⟨⟨0, 19⟩, ⟨0, 22⟩⟩, [⟨"a", ⟨⟨0, 19⟩, ⟨0, 22⟩⟩⟩]⟩

/-- An `INIT_TARGET(n, s, c, )` occurrence whose dependency argument has
no tokens at all. -/
def c7Cursor : Cursor :=
  ⟨"INIT_TARGET", ⟨⟨3, 1⟩, ⟨3, 25⟩⟩,
   [mkTok "INIT_TARGET" 1 12, mkTok "(" 12 13, mkTok "n" 13 14, mkTok "," 14 15,
    mkTok "s" 15 16, mkTok "," 16 17, mkTok "c" 17 18, mkTok "," 18 19,
    mkTok ")" 19 20]⟩

/-- The target `build_target` extracts from `c7Cursor`: the dependency
region falls back to the cursor extent `(3,1)-(3,25)` ↦ `(2,0)-(2,24)`. -/
def c7Target : InitTarget := ⟨"n", "s", "c", "f.c", ⟨⟨2, 0⟩, ⟨2, 24⟩⟩, []⟩

/-- A diagnostic for the publish-round witness. -/
def c9Diag : Diagnostic := ⟨⟨⟨0, 0⟩, ⟨0, 1⟩⟩, .error, "m", "cronus-init"⟩

/-- Target `alpha` defined in `f.c`. -/
def c10TargetA : InitTarget := ⟨"alpha", "S1", "C1", "f.c", ⟨⟨0, 0⟩, ⟨0, 1⟩⟩, []⟩

/-- A second target also named `alpha`, defined in `g.c`. -/
def c10TargetB : InitTarget := ⟨"alpha", "S2", "C2", "g.c", ⟨⟨0, 0⟩, ⟨0, 1⟩⟩, []⟩

/-- Init state holding two targets with the same name. -/
def c10State : InitState := [("f.c", [c10TargetA]), ("g.c", [c10TargetB])]

/-! ## Association-map lemmas -/

lemma find?_filter_ne {α : Type} (st : List (Path × α)) (p : Path) :
    (st.filter (fun e => e.1 != p)).find? (fun e => e.1 == p) = none := by
  induction st with
  | nil => simp
  | cons e rest ih =>
    rw [List.filter_cons]
    by_cases h : e.1 = p
    · simp only [h, bne_self_eq_false, Bool.false_eq_true, if_false]
      exact ih
    · have h1 : (e.1 != p) = true := by simpa using h
      have h2 : ¬ (e.1 == p) = true := by simpa using h
      simp only [h1, if_true]
      rw [List.find?_cons_of_neg (p := fun x : Path × α => x.1 == p) _ h2]
      exact ih

lemma find?_filter_of_ne {α : Type} (st : List (Path × α)) (p q : Path) (hq : q ≠ p) :
    (st.filter (fun e => e.1 != p)).find? (fun e => e.1 == q) =
      st.find? (fun e => e.1 == q) := by
  induction st with
  | nil => simp
  | cons e rest ih =>
    rw [List.filter_cons]
    by_cases h : e.1 = p
    · have hne : ¬ (e.1 == q) = true := by
        simp only [beq_iff_eq, h]
        exact fun hc => hq hc.symm
      simp only [h, bne_self_eq_false, Bool.false_eq_true, if_false]
      rw [ih, List.find?_cons_of_neg (p := fun x : Path × α => x.1 == q) _ hne]
    · have h1 : (e.1 != p) = true := by simpa using h
      simp only [h1, if_true]
      by_cases h2 : e.1 = q
      · rw [List.find?_cons_of_pos (p := fun x : Path × α => x.1 == q) _ (by simpa using h2),
          List.find?_cons_of_pos (p := fun x : Path × α => x.1 == q) _ (by simpa using h2)]
      · rw [List.find?_cons_of_neg (p := fun x : Path × α => x.1 == q) _ (by simpa using h2),
          List.find?_cons_of_neg (p := fun x : Path × α => x.1 == q) _ (by simpa using h2)]
        exact ih

lemma lookup_mapInsert_self {α : Type} (st : List (Path × α)) (p : Path) (v : α) :
    lookupFile (mapInsert st p v) p = some v := by
  unfold lookupFile mapInsert
  rw [List.find?_append, find?_filter_ne]
  simp

lemma lookup_mapInsert_ne {α : Type} (st : List (Path × α)) (p q : Path) (v : α)
    (hq : q ≠ p) : lookupFile (mapInsert st p v) q = lookupFile st q := by
  unfold lookupFile mapInsert
  rw [List.find?_append, find?_filter_of_ne st p q hq]
  cases h : st.find? (fun e => e.1 == q) with
  | none =>
    have : ¬ (p == q) = true := by simp; exact fun hc => hq hc.symm
    simp [this]
  | some e => simp

lemma lookup_mapErase_self {α : Type} (st : List (Path × α)) (p : Path) :
    lookupFile (mapErase st p) p = none := by
  unfold lookupFile mapErase
  rw [find?_filter_ne]
  rfl

lemma lookup_mapErase_ne {α : Type} (st : List (Path × α)) (p q : Path) (hq : q ≠ p) :
    lookupFile (mapErase st p) q = lookupFile st q := by
  unfold lookupFile mapErase
  rw [find?_filter_of_ne st p q hq]

lemma mapErase_of_lookup_none {α : Type} (st : List (Path × α)) (p : Path)
    (h : lookupFile st p = none) : mapErase st p = st := by
  unfold lookupFile at h
  have hall := List.find?_eq_none.mp (by
    cases hf : st.find? (fun e => e.1 == p) with
    | none => rfl
    | some e => rw [hf] at h; simp at h)
  unfold mapErase
  exact List.filter_eq_self.mpr (fun e he => by
    have := hall e he
    simpa using this)

lemma lookup_none_iff_keys {α : Type} (st : List (Path × α)) (p : Path) :
    lookupFile st p = none ↔ p ∉ st.map Prod.fst := by
  unfold lookupFile
  constructor
  · intro h hmem
    obtain ⟨e, he, hkey⟩ := List.mem_map.mp hmem
    have hfind : st.find? (fun x => x.1 == p) = none := by
      cases hf : st.find? (fun x => x.1 == p) with
      | none => rfl
      | some x => rw [hf] at h; simp at h
    have := List.find?_eq_none.mp hfind e he
    simp [hkey] at this
  · intro h
    have : st.find? (fun x => x.1 == p) = none := by
      apply List.find?_eq_none.mpr
      intro x hx
      simp only [beq_iff_eq]
      intro hc
      exact h (List.mem_map.mpr ⟨x, hx, hc⟩)
    rw [this]; rfl

lemma lookup_filterMap_none {α β : Type} (g : Path × α → Option (Path × β))
    (hg : ∀ e x, g e = some x → x.1 = e.1) (st : List (Path × α)) (p : Path)
    (h : p ∉ st.map Prod.fst) : lookupFile (st.filterMap g) p = none := by
  rw [lookup_none_iff_keys]
  intro hmem
  obtain ⟨x, hx, hkey⟩ := List.mem_map.mp hmem
  obtain ⟨e, he, hfe⟩ := List.mem_filterMap.mp hx
  exact h (List.mem_map.mpr ⟨e, he, by rw [← hkey, hg e x hfe]⟩)

lemma diagLookup_of_lookup_none (st : HookState) (p : Path)
    (h : lookupFile st p = none) : diagLookup (hook_diagnostics st) p = [] := by
  unfold diagLookup hook_diagnostics
  rw [lookup_filterMap_none]
  · rfl
  · intro e x hfe
    by_cases hemp : (unknownHookDiags (hookKnownNames st) e.2.invocations).isEmpty
    · simp [hemp] at hfe
    · simp only [hemp, Bool.false_eq_true, if_false] at hfe
      cases hfe
      rfl
  · exact (lookup_none_iff_keys st p).mp h

lemma diagLookup_hook_map (g : HookFileData → List Diagnostic) (st : HookState)
    (hnd : (st.map Prod.fst).Nodup) (p : Path) (data : HookFileData)
    (h : lookupFile st p = some data) :
    lookupFile (st.filterMap (fun e =>
      if (g e.2).isEmpty then none else some (e.1, g e.2))) p =
      (if (g data).isEmpty then none else some (g data)) := by
  induction st with
  | nil => simp [lookupFile] at h
  | cons e rest ih =>
    rw [List.map_cons, List.nodup_cons] at hnd
    rw [List.filterMap_cons]
    by_cases hkey : e.1 = p
    · have hdata : e.2 = data := by
        unfold lookupFile at h
        rw [List.find?_cons_of_pos (p := fun x : Path × HookFileData => x.1 == p) _
          (by simpa using hkey)] at h
        simpa using h
      have hrest : lookupFile (rest.filterMap (fun e =>
          if (g e.2).isEmpty then none else some (e.1, g e.2))) p = none := by
        apply lookup_filterMap_none
        · intro x y hxy
          by_cases hemp : (g x.2).isEmpty
          · simp [hemp] at hxy
          · simp only [hemp, Bool.false_eq_true, if_false] at hxy
            cases hxy
            rfl
        · intro hmem
          exact hnd.1 (hkey ▸ hmem)
      by_cases hemp : (g e.2).isEmpty
      · rw [hdata] at hemp
        simp only [hdata, hemp, if_true]
        exact hrest
      · rw [hdata] at hemp
        simp only [hdata, hemp, Bool.false_eq_true, if_false]
        unfold lookupFile
        rw [List.find?_cons_of_pos (p := fun x : Path × List Diagnostic => x.1 == p) _
          (by simpa using hkey)]
        rfl
    · have hr : lookupFile rest p = some data := by
        unfold lookupFile at h ⊢
        rwa [List.find?_cons_of_neg (p := fun x : Path × HookFileData => x.1 == p) _
          (by simpa using hkey)] at h
      by_cases hemp : (g e.2).isEmpty
      · simp only [hemp, if_true]
        exact ih hnd.2 hr
      · simp only [hemp, Bool.false_eq_true, if_false]
        unfold lookupFile
        rw [List.find?_cons_of_neg (p := fun x : Path × List Diagnostic => x.1 == p) _
          (by simpa using hkey)]
        exact ih hnd.2 hr

/-! ## Claim theorems -/

/-- C5 counterexample: a top-level `,` before the first `(` is not
ignored — it closes an (empty) argument group, so prepending it changes
the result of the split. -/
theorem split_leading_comma_counterexample :
    split_macro_args commaFirstTokens = some [[], [mkTok "a" 4 5]] ∧
    commaFirstTokens = mkTok "," 1 2 :: afterCommaTokens ∧
    split_macro_args afterCommaTokens = some [[mkTok "a" 4 5]] ∧
    split_macro_args commaFirstTokens ≠ split_macro_args afterCommaTokens := by
  decide

lemma splitLoop_skip_nondelims (pre ts : List Token)
    (hpre : ∀ t ∈ pre, t.spelling ≠ "(" ∧ t.spelling ≠ ")" ∧ t.spelling ≠ ",") :
    splitLoop (pre ++ ts) [] [] 0 false = splitLoop ts [] [] 0 false := by
  induction pre with
  | nil => rfl
  | cons t rest ih =>
    obtain ⟨h1, h2, h3⟩ := hpre t (List.mem_cons_self t rest)
    have hrest := fun x hx => hpre x (List.mem_cons_of_mem t hx)
    rw [List.cons_append]
    show splitLoop (t :: (rest ++ ts)) [] [] 0 false = _
    rw [splitLoop]
    simp only [h1, h2, h3, if_false, false_and, Bool.false_eq_true, ite_false,
      if_neg (fun hc => h1 hc), if_neg (fun hc => h2 hc)]
    exact ih hrest

/-- C5 amended: `split_top_level_arguments` ignores tokens before the
first `(` only when they are not `,` or `)` — a top-level `,` or `)`
acts even before the first `(` (the comma closes the current, possibly
empty, group; the `)` ends the whole split); otherwise it splits on
commas at depth zero, keeps nested parenthesis tokens verbatim while
tracking depth, and stops at the first `)` at depth zero; splitting the
token stream of `FOO(a, (b,c), d)` yields exactly the 3 groups `a`,
`(b,c)` (parentheses retained), `d`. -/
theorem split_macro_args_spec (pre ts : List Token)
    (hpre : ∀ t ∈ pre, t.spelling ≠ "(" ∧ t.spelling ≠ ")" ∧ t.spelling ≠ ",") :
    split_macro_args (pre ++ ts) = split_macro_args ts ∧
    split_macro_args fooCallTokens =
      some [[mkTok "a" 5 6],
            [mkTok "(" 8 9, mkTok "b" 9 10, mkTok "," 10 11, mkTok "c" 11 12,
             mkTok ")" 12 13],
            [mkTok "d" 15 16]] := by
  refine ⟨?_, by decide⟩
  unfold split_macro_args
  rw [splitLoop_skip_nondelims pre ts hpre]

/-- Witness for `split_macro_args_spec`: a leading identifier token is
ignored, and the `FOO(a, (b,c), d)` split is evaluated. -/
theorem split_macro_args_spec_witness :
    (split_macro_args ([mkTok "x" 0 1] ++ fooCallTokens) =
      split_macro_args fooCallTokens) ∧
    split_macro_args fooCallTokens =
      some [[mkTok "a" 5 6],
            [mkTok "(" 8 9, mkTok "b" 9 10, mkTok "," 10 11, mkTok "c" 11 12,
             mkTok ")" 12 13],
            [mkTok "d" 15 16]] :=
  split_macro_args_spec [mkTok "x" 0 1] fooCallTokens (by decide)

/-- C6: the hook indexer's `diagnostics()` output for an indexed file is
exactly one `Unknown hook '<name>'` error at the invocation's
`name_range` per invocation of kind `Run` whose name is non-empty and
absent from the union of hook-definition names across all files (the
list equality gives exactly one diagnostic per qualifying invocation);
every emitted diagnostic is error-severity, tagged `cronus-hooks`, and
stems from such an invocation — so empty-name invocations and
(duplicate) definitions never produce one. -/
theorem hook_diagnostics_spec (st : HookState) (p : Path) (data : HookFileData)
    (hnd : (st.map Prod.fst).Nodup) (h : lookupFile st p = some data) :
    diagLookup (hook_diagnostics st) p =
      unknownHookDiags (hookKnownNames st) data.invocations ∧
    (∀ d ∈ diagLookup (hook_diagnostics st) p,
      d.severity = Severity.error ∧ d.source = "cronus-hooks" ∧
      ∃ inv ∈ data.invocations, inv.kind = HookInvocationKind.run ∧
        inv.name ≠ "" ∧ inv.name ∉ hookKnownNames st ∧ d = mkUnknownHookDiag inv) ∧
    (∀ inv ∈ data.invocations, inv.kind = HookInvocationKind.run →
      inv.name ≠ "" → inv.name ∉ hookKnownNames st →
      mkUnknownHookDiag inv ∈ diagLookup (hook_diagnostics st) p) := by
  have hm2 : lookupFile (hook_diagnostics st) p =
      (if (unknownHookDiags (hookKnownNames st) data.invocations).isEmpty then none
       else some (unknownHookDiags (hookKnownNames st) data.invocations)) :=
    diagLookup_hook_map
      (fun d => unknownHookDiags (hookKnownNames st) d.invocations) st hnd p data h
  have hchar : diagLookup (hook_diagnostics st) p =
      unknownHookDiags (hookKnownNames st) data.invocations := by
    unfold diagLookup
    rw [hm2]
    by_cases hemp : (unknownHookDiags (hookKnownNames st) data.invocations).isEmpty
    · rw [List.isEmpty_iff] at hemp
      simp [hemp]
    · simp only [hemp, Bool.false_eq_true, if_false, Option.getD_some]
  refine ⟨hchar, ?_, ?_⟩
  · intro d hd
    rw [hchar] at hd
    unfold unknownHookDiags at hd
    obtain ⟨inv, hmem, rfl⟩ := List.mem_map.mp hd
    have h2 := List.mem_filter.mp hmem
    have h1 := List.mem_filter.mp h2.1
    refine ⟨rfl, rfl, inv, h1.1, ?_, ?_, ?_, rfl⟩
    · have := h1.2
      simpa using this
    · have := h2.2
      simp only [Bool.and_eq_true, bne_iff_ne, ne_eq] at this
      exact this.1
    · have := h2.2
      simp only [Bool.and_eq_true, decide_eq_true_eq] at this
      intro hc
      exact this.2 (by simpa using hc)
  · intro inv hmem hkind hname hknown
    rw [hchar]
    unfold unknownHookDiags
    apply List.mem_map.mpr
    refine ⟨inv, ?_, rfl⟩
    apply List.mem_filter.mpr
    refine ⟨List.mem_filter.mpr ⟨hmem, by simp [hkind]⟩, ?_⟩
    simp only [Bool.and_eq_true, bne_iff_ne, ne_eq, decide_eq_true_eq]
    exact ⟨hname, fun hc => hknown (by simpa using hc)⟩

/-- Witness for `hook_diagnostics_spec`: one definition `build`, runs of
`missing` (unknown), `build` (known), `""` (empty), and a definition-site
invocation. -/
theorem hook_diagnostics_spec_witness :
    diagLookup (hook_diagnostics c6State) "f.c" =
      unknownHookDiags (hookKnownNames c6State) c6FileData.invocations ∧
    (∀ d ∈ diagLookup (hook_diagnostics c6State) "f.c",
      d.severity = Severity.error ∧ d.source = "cronus-hooks" ∧
      ∃ inv ∈ c6FileData.invocations, inv.kind = HookInvocationKind.run ∧
        inv.name ≠ "" ∧ inv.name ∉ hookKnownNames c6State ∧ d = mkUnknownHookDiag inv) ∧
    (∀ inv ∈ c6FileData.invocations, inv.kind = HookInvocationKind.run →
      inv.name ≠ "" → inv.name ∉ hookKnownNames c6State →
      mkUnknownHookDiag inv ∈ diagLookup (hook_diagnostics c6State) "f.c") :=
  hook_diagnostics_spec c6State "f.c" c6FileData (by decide) (by decide)

/-- C3: removing a file makes its completions query return `none`, its
diagnostics empty, and removes its names from the known-name unions that
diagnose other files (for both plugins); removal is the identity when
the file was never indexed. -/
theorem remove_file_spec (hst : HookState) (ist : InitState) (p : Path)
    (pos : Position) (n : String)
    (hwf : ∀ e ∈ ist, ∀ t ∈ e.2, t.file = e.1) :
    hook_completions (hook_on_file_removed hst p) p pos = none ∧
    init_completions (init_on_file_removed ist p) p pos = none ∧
    diagLookup (hook_diagnostics (hook_on_file_removed hst p)) p = [] ∧
    init_diagnostics_at (init_on_file_removed ist p) p = [] ∧
    (n ∈ hookKnownNames (hook_on_file_removed hst p) ↔
      ∃ e ∈ hst, e.1 ≠ p ∧ n ∈ e.2.definitions.map HookDefinition.name) ∧
    (n ∈ initKnownNames (init_on_file_removed ist p) ↔
      ∃ e ∈ ist, e.1 ≠ p ∧ n ∈ e.2.map InitTarget.name) ∧
    (lookupFile hst p = none → hook_on_file_removed hst p = hst) ∧
    (lookupFile ist p = none → init_on_file_removed ist p = ist) := by
  refine ⟨?_, ?_, ?_, ?_, ?_, ?_, ?_, ?_⟩
  · simp [hook_completions, hook_on_file_removed, lookup_mapErase_self]
  · simp [init_completions, init_on_file_removed, lookup_mapErase_self]
  · exact diagLookup_of_lookup_none _ p (lookup_mapErase_self hst p)
  · have hfil : ((iter_targets (init_on_file_removed ist p)).filter
        (fun t => t.file == p)) = [] := by
      rw [List.filter_eq_nil_iff]
      intro t ht
      unfold iter_targets init_on_file_removed mapErase at ht
      obtain ⟨e, he, hte⟩ := List.mem_flatMap.mp ht
      have hef := List.mem_filter.mp he
      have hfe : t.file = e.1 := hwf e hef.1 t hte
      have hne : e.1 ≠ p := by simpa using hef.2
      simp [hfe, hne]
    unfold init_diagnostics_at
    rw [hfil]
    rfl
  · simp only [hookKnownNames, iter_definitions, hook_on_file_removed, mapErase,
      List.mem_map, List.mem_flatMap, List.mem_filter, bne_iff_ne, ne_eq]
    constructor
    · rintro ⟨d, ⟨e, ⟨he, hne⟩, hd⟩, hdn⟩
      exact ⟨e, he, hne, d, hd, hdn⟩
    · rintro ⟨e, he, hne, d, hd, hdn⟩
      exact ⟨d, ⟨e, ⟨he, hne⟩, hd⟩, hdn⟩
  · simp only [initKnownNames, iter_targets, init_on_file_removed, mapErase,
      List.mem_map, List.mem_flatMap, List.mem_filter, bne_iff_ne, ne_eq]
    constructor
    · rintro ⟨t, ⟨e, ⟨he, hne⟩, ht⟩, htn⟩
      exact ⟨e, he, hne, t, ht, htn⟩
    · rintro ⟨e, he, hne, t, ht, htn⟩
      exact ⟨t, ⟨e, ⟨he, hne⟩, ht⟩, htn⟩
  · exact fun hnone => mapErase_of_lookup_none hst p hnone
  · exact fun hnone => mapErase_of_lookup_none ist p hnone

/-- Witness for `remove_file_spec`: removing the never-indexed `f.c`
from states owning only `g.c`. -/
theorem remove_file_spec_witness :
    hook_completions (hook_on_file_removed c3HookState "f.c") "f.c" ⟨0, 0⟩ = none ∧
    init_completions (init_on_file_removed c3InitState "f.c") "f.c" ⟨0, 0⟩ = none ∧
    diagLookup (hook_diagnostics (hook_on_file_removed c3HookState "f.c")) "f.c" = [] ∧
    init_diagnostics_at (init_on_file_removed c3InitState "f.c") "f.c" = [] ∧
    ("h" ∈ hookKnownNames (hook_on_file_removed c3HookState "f.c") ↔
      ∃ e ∈ c3HookState, e.1 ≠ "f.c" ∧ "h" ∈ e.2.definitions.map HookDefinition.name) ∧
    ("h" ∈ initKnownNames (init_on_file_removed c3InitState "f.c") ↔
      ∃ e ∈ c3InitState, e.1 ≠ "f.c" ∧ "h" ∈ e.2.map InitTarget.name) ∧
    (lookupFile c3HookState "f.c" = none →
      hook_on_file_removed c3HookState "f.c" = c3HookState) ∧
    (lookupFile c3InitState "f.c" = none →
      init_on_file_removed c3InitState "f.c" = c3InitState) :=
  remove_file_spec c3HookState c3InitState "f.c" ⟨0, 0⟩ "h" (by decide)

lemma depsLoop_cons_nonlit (tok : Token) (rest : List Token) (reg : Range)
    (slots : List DependencySlot) (hl : tok.isLiteral = false) :
    depsLoop (tok :: rest) reg slots = depsLoop rest reg slots := by
  rw [depsLoop, if_neg (by rw [hl]; exact Bool.false_ne_true)]

lemma depsLoop_cons_lit (tok : Token) (rest : List Token) (reg : Range)
    (slots : List DependencySlot) (hl : tok.isLiteral = true) :
    depsLoop (tok :: rest) reg slots =
      depsLoop rest ⟨reg.start, ⟨tok.extent.stop.line - 1, tok.extent.stop.column - 1⟩⟩
        (slots ++ [⟨stripQuotes tok.spelling,
          ⟨⟨tok.extent.start.line - 1, tok.extent.start.column - 1⟩,
           ⟨tok.extent.stop.line - 1, tok.extent.stop.column - 1⟩⟩⟩]) := by
  rw [depsLoop, if_pos hl]
  rfl

lemma depsLoop_no_literal : ∀ (ts : List Token) (reg : Range)
    (slots : List DependencySlot), (∀ x ∈ ts, x.isLiteral = false) →
    depsLoop ts reg slots = some (reg, slots)
  | [], _, _, _ => rfl
  | tok :: rest, reg, slots, h => by
    rw [depsLoop_cons_nonlit tok rest reg slots (h tok (List.mem_cons_self _ _))]
    exact depsLoop_no_literal rest reg slots
      (fun x hx => h x (List.mem_cons_of_mem _ hx))

lemma depsLoop_last_literal : ∀ (ts : List Token) (reg : Range)
    (slots : List DependencySlot) (reg' : Range) (slots' : List DependencySlot),
    depsLoop ts reg slots = some (reg', slots') →
    ∀ lit, (ts.filter (fun x => x.isLiteral)).getLast? = some lit →
    reg'.stop = ⟨lit.extent.stop.line - 1, lit.extent.stop.column - 1⟩
  | [], _, _, _, _, _, lit, hlit => by simp at hlit
  | tok :: rest, reg, slots, reg', slots', h, lit, hlit => by
    cases hl : tok.isLiteral with
    | false =>
      rw [depsLoop_cons_nonlit _ _ _ _ hl] at h
      rw [List.filter_cons, if_neg (by rw [hl]; exact Bool.false_ne_true)] at hlit
      exact depsLoop_last_literal rest reg slots reg' slots' h lit hlit
    | true =>
      rw [depsLoop_cons_lit _ _ _ _ hl] at h
      rw [List.filter_cons, if_pos hl] at hlit
      cases hfr : rest.filter (fun x => x.isLiteral) with
      | nil =>
        rw [hfr] at hlit
        have hlt : lit = tok := by simpa using hlit.symm
        have hnol : ∀ x ∈ rest, x.isLiteral = false := by
          intro x hx
          cases hxl : x.isLiteral with
          | false => rfl
          | true =>
            have hmem : x ∈ rest.filter (fun x => x.isLiteral) :=
              List.mem_filter.mpr ⟨hx, hxl⟩
            rw [hfr] at hmem
            exact absurd hmem (List.not_mem_nil x)
        rw [depsLoop_no_literal rest _ _ hnol] at h
        simp only [Option.some.injEq, Prod.mk.injEq] at h
        obtain ⟨hr, _⟩ := h
        rw [← hr, hlt]
      | cons y ys =>
        rw [hfr] at hlit
        rw [List.getLast?_cons_cons] at hlit
        exact depsLoop_last_literal rest _ _ reg' slots' h lit (by rw [hfr]; exact hlit)

lemma build_target_region (file : Path) (c : Cursor) (t : InitTarget)
    (deps : List Token) (hb : build_target file c = some t)
    (hd : depsArg c = some deps) :
    ∃ region0, (tokens_range deps).or (cursor_range c) = some region0 ∧
      depsLoop deps region0 [] = some (t.dependency_region, t.dependency_slots) := by
  unfold build_target at hb
  unfold depsArg at hd
  simp only [Option.bind_eq_bind] at hb hd
  rw [Option.bind_eq_some] at hb hd
  obtain ⟨tokens, htok, hb⟩ := hb
  obtain ⟨tokens2, htok2, hd⟩ := hd
  rw [htok] at htok2
  cases htok2
  rw [Option.bind_eq_some] at hb hd
  obtain ⟨args, hsplit, hb⟩ := hb
  obtain ⟨args2, hsplit2, hd⟩ := hd
  rw [hsplit] at hsplit2
  cases hsplit2
  by_cases h4 : args.length = 4
  · rw [dif_pos h4] at hb hd
    rw [Option.bind_eq_some] at hb
    obtain ⟨name, _, hb⟩ := hb
    rw [Option.bind_eq_some] at hb
    obtain ⟨stage, _, hb⟩ := hb
    rw [Option.bind_eq_some] at hb
    obtain ⟨scope, _, hb⟩ := hb
    rw [Option.bind_eq_some] at hb
    obtain ⟨region0, hor, hb⟩ := hb
    rw [Option.bind_eq_some] at hb
    obtain ⟨pr, hloop, hb⟩ := hb
    obtain ⟨region, slots⟩ := pr
    simp only [Option.pure_def, Option.some.injEq] at hb
    have hdeps : deps = args.get ⟨3, by omega⟩ := by
      simp only [Option.pure_def, Option.some.injEq] at hd
      exact hd.symm
    subst hdeps
    refine ⟨region0, hor, ?_⟩
    rw [hloop, ← hb]
  · rw [dif_neg h4] at hb
    exact absurd hb (by simp)

/-- C7 counterexample: `location_to_position` does not fail on an
unresolvable source location — libclang reports it as line 0, column 0
and the conversion still produces a `Position` (0,0) via saturating
subtraction. -/
theorem cxlocation_unresolvable_counterexample :
    cxlocation_to_position ⟨0, 0⟩ = some ⟨0, 0⟩ ∧
    cxlocation_to_position ⟨0, 0⟩ ≠ none := by
  decide

/-- C7 amended: `location_to_position` never fails — every location,
resolvable or not, maps to `(line-1, column-1)` with saturating
subtraction, so an unresolvable location yields `Position (0,0)` rather
than a failure; the token-range computation fails only when the token
list is empty (it succeeds on every non-empty list), and it is in that
empty case that `build_target` falls back to the enclosing node's
whole-extent range for the dependency region. -/
theorem location_conversion_spec (loc : Location) (ts : List Token)
    (file : Path) (c : Cursor) (t : InitTarget)
    (hts : ts ≠ []) (hdeps : depsArg c = some []) (hb : build_target file c = some t) :
    cxlocation_to_position loc = some ⟨loc.line - 1, loc.column - 1⟩ ∧
    (∃ r, tokens_range ts = some r) ∧
    tokens_range ([] : List Token) = none ∧
    (∃ cr, cursor_range c = some cr ∧ t.dependency_region = cr) := by
  refine ⟨rfl, ?_, rfl, ?_⟩
  · cases ts with
    | nil => exact absurd rfl hts
    | cons a l =>
      obtain ⟨b, hb2⟩ := Option.isSome_iff_exists.mp
        ((List.getLast?_isSome (l := a :: l)).mpr (by simp))
      refine ⟨⟨⟨a.extent.start.line - 1, a.extent.start.column - 1⟩,
        ⟨b.extent.stop.line - 1, b.extent.stop.column - 1⟩⟩, ?_⟩
      unfold tokens_range
      rw [Option.bind_eq_bind, Option.bind_eq_some]
      refine ⟨a, rfl, ?_⟩
      rw [Option.bind_eq_bind, Option.bind_eq_some]
      exact ⟨b, hb2, rfl⟩
  · obtain ⟨region0, hor, hloop⟩ := build_target_region file c t [] hb hdeps
    have hor2 : cursor_range c = some region0 := by
      rw [show tokens_range ([] : List Token) = none from rfl, Option.none_or] at hor
      exact hor
    have h0 : depsLoop [] region0 [] = some (region0, []) := rfl
    rw [h0] at hloop
    simp only [Option.some.injEq, Prod.mk.injEq] at hloop
    exact ⟨region0, hor2, hloop.1.symm⟩

/-- Witness for `location_conversion_spec` at a concrete location, token
list, and `INIT_TARGET` occurrence with an empty dependency argument. -/
theorem location_conversion_spec_witness :
    cxlocation_to_position ⟨7, 3⟩ = some ⟨6, 2⟩ ∧
    (∃ r, tokens_range [mkTok "y" 2 3] = some r) ∧
    tokens_range ([] : List Token) = none ∧
    (∃ cr, cursor_range c7Cursor = some cr ∧ c7Target.dependency_region = cr) :=
  location_conversion_spec ⟨7, 3⟩ [mkTok "y" 2 3] "f.c" c7Cursor c7Target
    (by decide) (by decide) (by decide)

/-- C8: for every init target built from a 4-argument occurrence whose
dependency argument contains at least one string-literal token, the
resulting `dependency_region` ends exactly at (hence at least at) the
last literal's range end, whatever the initially computed bounding range
of the dependency tokens was. -/
theorem dependency_region_last_literal (file : Path) (c : Cursor) (t : InitTarget)
    (deps : List Token) (lit : Token)
    (hb : build_target file c = some t) (hd : depsArg c = some deps)
    (hlit : (deps.filter (fun x => x.isLiteral)).getLast? = some lit) :
    ∃ lr, token_range lit = some lr ∧ t.dependency_region.stop = lr.stop ∧
      posLe lr.stop t.dependency_region.stop := by
  obtain ⟨region0, hor, hloop⟩ := build_target_region file c t deps hb hd
  have hstop := depsLoop_last_literal deps region0 [] t.dependency_region
    t.dependency_slots hloop lit hlit
  refine ⟨⟨⟨lit.extent.start.line - 1, lit.extent.start.column - 1⟩,
    ⟨lit.extent.stop.line - 1, lit.extent.stop.column - 1⟩⟩, rfl, hstop, ?_⟩
  rw [hstop]
  exact Or.inr ⟨rfl, le_refl _⟩

/-- Witness for `dependency_region_last_literal`: on `c8Cursor` the
dependency tokens' bounding range would end at the trailing token `x`
(column 29), yet the built target's region ends at the literal's end
(column 22). -/
theorem dependency_region_last_literal_witness :
    ∃ lr, token_range c8Lit = some lr ∧ c8Target.dependency_region.stop = lr.stop ∧
      posLe lr.stop c8Target.dependency_region.stop :=
  dependency_region_last_literal "f.c" c8Cursor c8Target c8Deps c8Lit
    (by decide) (by decide) (by decide)

/-- C1 counterexample: with the target `t` whose dependency list is
`"a", "a"` and no target named `a` indexed anywhere, `diagnostics()`
emits 2 diagnostics on that file, not 4, and no warning at all: the
duplicate-dependency check is reached only in the `else` branch of the
unknown-dependency check. -/
theorem init_dup_unknown_counterexample :
    init_diagnostics_at c1State "f.c" =
      [mkUnknownDepDiag c1SlotA1, mkUnknownDepDiag c1SlotA2] ∧
    (init_diagnostics_at c1State "f.c").length = 2 ∧
    ¬ (init_diagnostics_at c1State "f.c").length = 4 ∧
    ¬ Severity.warning ∈ (init_diagnostics_at c1State "f.c").map Diagnostic.severity := by
  decide

/-- C1 amended: for an init target with dependency slots `n`, `n` where
no indexed target is named `n`, `diagnostics()` emits exactly 2
diagnostics on that target — one error-severity `Unknown init dependency`
per slot — and no duplicate warnings, because the duplicate-dependency
check applies only to slots whose name is known (the two checks are
chained with else-if, not independent). -/
theorem init_dup_unknown_dep_diags (t : InitTarget) (s1 s2 : DependencySlot)
    (n : String) (hslots : t.dependency_slots = [s1, s2])
    (h1 : s1.name = n) (h2 : s2.name = n) (hname : t.name ≠ n) :
    init_diagnostics_at [(t.file, [t])] t.file =
      [mkUnknownDepDiag s1, mkUnknownDepDiag s2] ∧
    (init_diagnostics_at [(t.file, [t])] t.file).map Diagnostic.severity =
      [Severity.error, Severity.error] := by
  have hcon : (([t.name] : List String).contains n) = false := by
    rw [List.contains_cons, List.contains_nil, Bool.or_false]
    exact beq_eq_false_iff_ne.mpr (fun hc => hname hc.symm)
  have hkn : initKnownNames [(t.file, [t])] = [t.name] := rfl
  have hdiags : initTargetDiags [t.name] t =
      [mkUnknownDepDiag s1, mkUnknownDepDiag s2] := by
    have hc1 : ¬ (([t.name] : List String).contains s1.name) = true := by
      rw [h1, hcon]; exact Bool.false_ne_true
    have hc2 : ¬ (([t.name] : List String).contains s2.name) = true := by
      rw [h2, hcon]; exact Bool.false_ne_true
    unfold initTargetDiags
    rw [hslots,
      List.filterMap_cons_some (by rw [if_pos hc1]),
      List.filterMap_cons_some (by rw [if_pos hc2]),
      List.filterMap_nil]
  have hmain : init_diagnostics_at [(t.file, [t])] t.file =
      [mkUnknownDepDiag s1, mkUnknownDepDiag s2] := by
    unfold init_diagnostics_at
    have hfil : (iter_targets [(t.file, [t])]).filter (fun x => x.file == t.file) =
        [t] := by
      show List.filter _ (t :: []) = [t]
      rw [List.filter_cons]
      simp
    rw [hfil, hkn]
    show initTargetDiags [t.name] t ++ [] = _
    rw [List.append_nil, hdiags]
  refine ⟨hmain, ?_⟩
  rw [hmain]
  rfl

/-- Witness for `init_dup_unknown_dep_diags` at the concrete C1 state. -/
theorem init_dup_unknown_dep_diags_witness :
    init_diagnostics_at [(c1Target.file, [c1Target])] c1Target.file =
      [mkUnknownDepDiag c1SlotA1, mkUnknownDepDiag c1SlotA2] ∧
    (init_diagnostics_at [(c1Target.file, [c1Target])] c1Target.file).map
      Diagnostic.severity = [Severity.error, Severity.error] :=
  init_dup_unknown_dep_diags c1Target c1SlotA1 c1SlotA2 "a"
    (by decide) (by decide) (by decide) (by decide)

/-- C2 counterexample: `f.c` is indexed and `(0,5)` lies inside the
recorded invocation's `argument_region`, yet `completions` returns
`some []` — a non-none but empty list, because no hook definition is
indexed anywhere. -/
theorem hook_completions_nonempty_counterexample :
    lookupFile c2State "f.c" ≠ none ∧
    range_contains c2Region ⟨0, 5⟩ = true ∧
    hook_completions c2State "f.c" ⟨0, 5⟩ = some [] := by
  decide

lemma insertAscending_ne_nil (s : String) (l : List String) :
    insertAscending s l ≠ [] := by
  cases l with
  | nil => simp [insertAscending]
  | cons x xs =>
    unfold insertAscending
    by_cases h1 : s = x
    · simp [h1]
    · by_cases h2 : s < x
      · simp [h1, h2]
      · simp [h1, h2]

lemma foldl_insertAscending_ne_nil (xs : List HookDefinition) (acc : List String)
    (h : acc ≠ [] ∨ xs ≠ []) :
    xs.foldl (fun a d => insertAscending d.name a) acc ≠ [] := by
  induction xs generalizing acc with
  | nil =>
    rw [List.foldl_nil]
    exact h.resolve_right (by simp)
  | cons x xs ih =>
    rw [List.foldl_cons]
    exact ih _ (Or.inl (insertAscending_ne_nil _ _))

/-- C2 amended: for an indexed file, `completions` returns a non-none
result exactly when the position falls (per the `range_contains`
predicate) inside some recorded invocation's `argument_region`, and
`none` otherwise; the returned list is the shared completion-item list,
which is non-empty whenever at least one hook definition is indexed in
any file (it is empty when no definitions exist anywhere). -/
theorem hook_completions_region_spec (st : HookState) (p : Path) (pos : Position)
    (data : HookFileData) (hlook : lookupFile st p = some data) :
    ((data.invocations.any fun inv => range_contains inv.argument_region pos) = true →
      hook_completions st p pos = some (hook_completion_items st)) ∧
    ((data.invocations.any fun inv => range_contains inv.argument_region pos) = false →
      hook_completions st p pos = none) ∧
    (iter_definitions st ≠ [] → hook_completion_items st ≠ []) := by
  refine ⟨?_, ?_, ?_⟩
  · intro hany
    unfold hook_completions
    rw [hlook]
    simp only [Option.pure_def, Option.bind_eq_bind, Option.some_bind]
    rw [if_pos hany]
  · intro hany
    unfold hook_completions
    rw [hlook]
    simp only [Option.pure_def, Option.bind_eq_bind, Option.some_bind]
    rw [if_neg (by rw [hany]; exact Bool.false_ne_true)]
  · intro hdef hc
    unfold hook_completion_items at hc
    rw [List.map_eq_nil_iff] at hc
    exact foldl_insertAscending_ne_nil (iter_definitions st) [] (Or.inr hdef) hc

/-- Witness for `hook_completions_region_spec`: inside the region the
result is the (non-empty) item list, outside it is `none`. -/
theorem hook_completions_region_spec_witness :
    hook_completions c2DefState "f.c" ⟨0, 5⟩ = some (hook_completion_items c2DefState) ∧
    hook_completions c2DefState "f.c" ⟨9, 9⟩ = none ∧
    hook_completion_items c2DefState ≠ [] := by
  have h1 := hook_completions_region_spec c2DefState "f.c" ⟨0, 5⟩
    ⟨[⟨"build"⟩], [⟨"build", c2Region, c2Region, .definition⟩]⟩ (by decide)
  have h2 := hook_completions_region_spec c2DefState "f.c" ⟨9, 9⟩
    ⟨[⟨"build"⟩], [⟨"build", c2Region, c2Region, .definition⟩]⟩ (by decide)
  exact ⟨h1.1 (by decide), h2.2.1 (by decide), h1.2.2 (by decide)⟩

/-- C4: `update(file, content)` is atomic per file. With the source-file
extension satisfied: a parse failure returns the error and leaves the
whole plugin state (hence every file's entities) unchanged, for both the
init-target and the hook plugin; a successful re-parse fully replaces the
file's entity set with the newly extracted entities and leaves every
other file's entities unchanged. -/
theorem update_atomic (ist : InitState) (hst : HookState) (p q : Path) (e : String)
    (its : List InitTarget) (hd : HookFileData)
    (hext : hasCExtension p = true) (hq : q ≠ p) :
    init_on_file_updated ist p (.error e) = (ist, .error e) ∧
    hook_on_file_updated hst p (.error e) = (hst, .error e) ∧
    (init_on_file_updated ist p (.ok its)).2 = .ok () ∧
    lookupFile (init_on_file_updated ist p (.ok its)).1 p = some its ∧
    lookupFile (init_on_file_updated ist p (.ok its)).1 q = lookupFile ist q ∧
    (hook_on_file_updated hst p (.ok hd)).2 = .ok () ∧
    lookupFile (hook_on_file_updated hst p (.ok hd)).1 p = some hd ∧
    lookupFile (hook_on_file_updated hst p (.ok hd)).1 q = lookupFile hst q := by
  unfold init_on_file_updated hook_on_file_updated
  simp only [hext]
  refine ⟨?_, ?_, ?_, ?_, ?_, ?_, ?_, ?_⟩
  · simp
  · simp
  · simp
  · simpa using lookup_mapInsert_self ist p its
  · simpa using lookup_mapInsert_ne ist p q its hq
  · simp
  · simpa using lookup_mapInsert_self hst p hd
  · simpa using lookup_mapInsert_ne hst p q hd hq

/-- Witness for `update_atomic` at a concrete input. -/
theorem update_atomic_witness :
    init_on_file_updated [] "a.c" (.error "boom") = ([], .error "boom") ∧
    hook_on_file_updated [] "a.c" (.error "boom") = ([], .error "boom") ∧
    (init_on_file_updated [] "a.c" (.ok [c1Target])).2 = .ok () ∧
    lookupFile (init_on_file_updated [] "a.c" (.ok [c1Target])).1 "a.c" = some [c1Target] ∧
    lookupFile (init_on_file_updated [] "a.c" (.ok [c1Target])).1 "b.c" = lookupFile [] "b.c" ∧
    (hook_on_file_updated [] "a.c" (.ok c6FileData)).2 = .ok () ∧
    lookupFile (hook_on_file_updated [] "a.c" (.ok c6FileData)).1 "a.c" = some c6FileData ∧
    lookupFile (hook_on_file_updated [] "a.c" (.ok c6FileData)).1 "b.c" = lookupFile [] "b.c" :=
  update_atomic [] [] "a.c" "b.c" "boom" [c1Target] c6FileData (by decide) (by decide)

/-- C9: in a publish round, every file that was published in the previous
round but has no diagnostics in the current round receives an explicit
empty-list publish, and the tracked published set becomes exactly the
current round's file set. -/
theorem publish_round_retracts_stale (published : List Path)
    (current : List (Path × List Diagnostic)) (p : Path)
    (hp : p ∈ published) (hnot : p ∉ current.map Prod.fst) :
    (p, ([] : List Diagnostic)) ∈ (publish_round published current).1 ∧
    (publish_round published current).2 = current.map Prod.fst := by
  refine ⟨?_, rfl⟩
  unfold publish_round
  apply List.mem_append.mpr
  right
  apply List.mem_map.mpr
  refine ⟨p, ?_, rfl⟩
  apply List.mem_filter.mpr
  refine ⟨hp, ?_⟩
  simp only [decide_eq_true_eq]
  intro hcon
  exact hnot (by simpa using hcon)

/-- Witness for `publish_round_retracts_stale` at a concrete input. -/
theorem publish_round_retracts_stale_witness :
    ("x.c", ([] : List Diagnostic)) ∈
      (publish_round ["x.c"] [("y.c", [c9Diag])]).1 ∧
    (publish_round ["x.c"] [("y.c", [c9Diag])]).2 =
      [("y.c", [c9Diag])].map Prod.fst :=
  publish_round_retracts_stale ["x.c"] [("y.c", [c9Diag])] "x.c"
    (by decide) (by decide)

/-- C10: the init-target completion list has exactly one candidate per
indexed target across all files (a permutation of the per-target items,
so equal names are not deduplicated and multiplicities are preserved),
is sorted by case-insensitive label comparison, and every candidate's
detail is `<stage_expr>/<scope_expr>` of the target that produced it. -/
theorem init_completion_items_spec (st : InitState) :
    (init_completion_items st).Perm ((iter_targets st).map mkInitItem) ∧
    List.Pairwise (fun a b => initItemLe a b = true) (init_completion_items st) ∧
    (∀ c ∈ init_completion_items st, ∃ t ∈ iter_targets st, c = mkInitItem t) ∧
    (∀ t : InitTarget,
      (init_completion_items st).count (mkInitItem t) =
        ((iter_targets st).map mkInitItem).count (mkInitItem t)) := by
  have hperm : (init_completion_items st).Perm ((iter_targets st).map mkInitItem) :=
    List.mergeSort_perm _ _
  refine ⟨hperm, ?_, ?_, ?_⟩
  · apply List.sorted_mergeSort
    · intro a b c hab hbc
      unfold initItemLe at hab hbc ⊢
      simp only [decide_eq_true_eq] at hab hbc ⊢
      exact le_trans hab hbc
    · intro a b
      unfold initItemLe
      rcases le_total a.label.toLower b.label.toLower with h | h
      · simp [h]
      · simp [h]
  · intro c hc
    obtain ⟨t, ht, rfl⟩ := List.mem_map.mp (hperm.mem_iff.mp hc)
    exact ⟨t, ht, rfl⟩
  · intro t
    exact hperm.count_eq _

/-- Witness for `init_completion_items_spec` at a concrete two-target
state whose targets share one name. -/
theorem init_completion_items_spec_witness :
    (init_completion_items c10State).Perm ((iter_targets c10State).map mkInitItem) ∧
    List.Pairwise (fun a b => initItemLe a b = true) (init_completion_items c10State) ∧
    (∀ c ∈ init_completion_items c10State, ∃ t ∈ iter_targets c10State, c = mkInitItem t) ∧
    (∀ t : InitTarget,
      (init_completion_items c10State).count (mkInitItem t) =
        ((iter_targets c10State).map mkInitItem).count (mkInitItem t)) :=
  init_completion_items_spec c10State

end Elysium
